import Mathlib

/-!
Shallow embedding of `src/script.js` (Mira Cars single-page site): the
pricing/quote engine (`calculatePrice`, the price part of
`handleBookingSubmit`), the admin authentication handlers
(`renderLoginContent` submit listeners), the settings editor
(`saveSettings`), and the localStorage-backed configuration store
(`loadSetting` / `saveSetting` with a JSON value model).

JavaScript numbers are modelled over `ℚ` (the formulas of the source are
exact rational arithmetic; `Math.ceil` is `Int.ceil`, `Math.round` is
`fun x => ⌊x + 1/2⌋`, ECMAScript round-half-up). JS `Date` values reached
through the two date inputs are modelled by `DateInput`: an empty input
gives `null`, a non-empty unparseable input gives an `Invalid Date`
(time value NaN), a parseable one gives a finite time value in
milliseconds.
-/

/-- A date input field as read from the DOM: empty value (the code builds
`null`), non-empty but unparseable (the code builds an `Invalid Date`,
whose time value is NaN), or parseable with a time value in ms. -/
inductive DateInput where
  | empty
  | invalid
  | valid (ms : Int)
  deriving DecidableEq

/-- The JS expression `el.value ? new Date(el.value) : null`.
`none` is `null`; `some none` is an `Invalid Date` (NaN time value);
`some (some ms)` is a valid date. -/
def dateValue : DateInput → Option (Option Int)
  | .empty => none
  | .invalid => some none
  | .valid ms => some (some ms)

/-- `Math.ceil((dropoff - pickup) / (1000 * 60 * 60 * 24))` on the time
values of the two dates; `none` models the NaN result when either date is
invalid. -/
def rawDayCount (pick drop : Option Int) : Option Int :=
  match pick, drop with
  | some p, some d => some ⌈(((d - p : Int) : ℚ) / (1000 * 60 * 60 * 24))⌉
  | _, _ => none

/-- Line 444 / 503: `if (!isFinite(days) || days < 1) days = 1;`. -/
def clampDays : Option Int → Int
  | some n => if n < 1 then 1 else n
  | none => 1

/-- The in-memory settings cache (lines 66-74), one field per
`loadSetting` call. -/
structure Config where
  phoneNumber : String
  vipCode : String
  vipGreeting : String
  useWhatsApp : Bool
  paymentMethods : List String
  carCategories : List (String × ℚ)
  extras : List (String × ℚ)
  depositPercent : ℚ
  adminEmail : String
  deriving DecidableEq

/-- The `DEFAULTS` object (lines 13-46). -/
def DEFAULTS : Config :=
  { phoneNumber := "+302101234567"
    vipCode := "VIP2025"
    vipGreeting := "Καλώς ήρθες VIP επισκέπτη!"
    useWhatsApp := false
    paymentMethods :=
      ["Πληρωμή στην παραλαβή", "Κάρτα (Stripe)", "PayPal",
       "Κατάθεση σε Τράπεζα", "Apple Pay", "Google Pay", "Revolut",
       "Viva Wallet", "Crypto"]
    carCategories := [("Economy", 30), ("SUV", 50), ("Luxury", 90)]
    extras :=
      [("GPS", 5), ("Παιδικό Κάθισμα", 6), ("Πρόσθετος Οδηγός", 7),
       ("Πλήρης Ασφάλεια", 10)]
    depositPercent := 30
    adminEmail := "info@miracars.example.com" }

/-- JS object lookup `obj[key] || 0` on a string-keyed map of prices. -/
def lookupOr0 : List (String × ℚ) → String → ℚ
  | [], _ => 0
  | (k, v) :: tl, key => if k = key then v else lookupOr0 tl key

/-- JS object lookup on a string-keyed map of strings, `none` when the
key is absent. -/
def lookupStr : List (String × String) → String → Option String
  | [], _ => none
  | (k, v) :: tl, key => if k = key then some v else lookupStr tl key

/-- The `PAYMENT_INSTRUCTIONS` table (lines 77-87). -/
def PAYMENT_INSTRUCTIONS : List (String × String) :=
  [("Πληρωμή στην παραλαβή",
    "Καμία προπληρωμή – πληρώνετε το πλήρες ποσό κατά την παραλαβή του οχήματος."),
   ("Κάρτα (Stripe)",
    "Θα λάβετε σύνδεσμο πληρωμής μέσω email για να ολοκληρώσετε την προκαταβολή με κάρτα μέσω Stripe."),
   ("PayPal", "Θα σας σταλεί σύνδεσμος PayPal για την πληρωμή της προκαταβολής."),
   ("Κατάθεση σε Τράπεζα", "Θα σας δοθούν τα στοιχεία IBAN για την τραπεζική κατάθεση."),
   ("Apple Pay", "Θα σας σταλεί αίτημα Apple Pay για την πληρωμή της προκαταβολής."),
   ("Google Pay", "Θα λάβετε σύνδεσμο Google Pay για την πληρωμή."),
   ("Revolut", "Θα σας σταλεί σύνδεσμος πληρωμής Revolut."),
   ("Viva Wallet", "Θα σας δοθεί σύνδεσμος Viva Wallet για την προκαταβολή."),
   ("Crypto", "Θα σας δοθεί διεύθυνση πορτοφολιού (BTC/ETH) για πληρωμή σε κρυπτονομίσματα.")]

/-- ECMAScript `Math.round`: round half up, `⌊x + 1/2⌋`. -/
def jsRound (x : ℚ) : Int := ⌊x + 1 / 2⌋

/-- The rounding idiom `Math.round(x * 100) / 100` of lines 459-460 and
512-513: round to 2 decimal places, half up at the cents boundary. -/
def round2 (x : ℚ) : ℚ := (jsRound (x * 100) : ℚ) / 100

/-- The price breakdown produced by `calculatePrice` (lines 443-476). -/
structure Quote where
  days : Int
  basePricePerDay : ℚ
  baseTotal : ℚ
  extrasTotal : ℚ
  subTotal : ℚ
  depositAmount : ℚ
  total : ℚ
  instructions : Option String
  deriving DecidableEq

/-- Result of `calculatePrice`: either the validation prompt written into
the summary element (line 439) or a computed quote. -/
inductive CalcResult where
  | failure (message : String)
  | quote (q : Quote)
  deriving DecidableEq

/-- The prompt of line 439. -/
def validationMessage : String :=
  "Επιλέξτε ημερομηνίες και κατηγορία οχήματος για να υπολογίσετε την τιμή."

/-- The generic payment fallback of line 475. -/
def genericPaymentMessage : String :=
  "Θα επικοινωνήσουμε μαζί σας για λεπτομέρειες πληρωμής."

/-- `calculatePrice` (lines 426-479), restricted to its computation: the
validation check of line 438 (`!pickup || !dropoff || !category`, where an
`Invalid Date` object is truthy), the day count of lines 443-444, the
base/extras/deposit/total of lines 446-460, and the payment-instruction
lookup of lines 472-476. `category` and `payment` are the select values
(`""` when absent), `selectedExtras` the checked checkbox values in DOM
order. -/
def calculatePrice (cfg : Config) (pickup dropoff : DateInput)
    (category payment : String) (selectedExtras : List String) : CalcResult :=
  match dateValue pickup, dateValue dropoff with
  | some pick, some drop =>
    if category = "" then .failure validationMessage
    else
      let days := clampDays (rawDayCount pick drop)
      let basePricePerDay := lookupOr0 cfg.carCategories category
      let baseTotal := basePricePerDay * (days : ℚ)
      let extrasTotal :=
        (selectedExtras.map (fun key => lookupOr0 cfg.extras key * (days : ℚ))).sum
      let subTotal := baseTotal + extrasTotal
      let depositAmount :=
        if cfg.depositPercent > 0 then round2 (subTotal * cfg.depositPercent / 100) else 0
      let total := round2 subTotal
      let instructions :=
        if payment = "" then none
        else some ((lookupStr PAYMENT_INSTRUCTIONS payment).getD genericPaymentMessage)
      .quote ⟨days, basePricePerDay, baseTotal, extrasTotal, subTotal,
             depositAmount, total, instructions⟩
  | _, _ => .failure validationMessage

/-- The price components computed by `handleBookingSubmit`
(lines 498-513). -/
structure BookingPrice where
  days : Int
  basePerDay : ℚ
  baseTotal : ℚ
  extrasTotal : ℚ
  subtotal : ℚ
  depositAmount : ℚ
  total : ℚ
  deriving DecidableEq

/-- The price-component part of `handleBookingSubmit` (lines 498-513):
`days` defaults to 1 and is recomputed only when both date strings are
non-empty; base, extras, deposit and total as in the live summary. -/
def handleBookingSubmitPrice (cfg : Config) (pickup dropoff : DateInput)
    (category : String) (selectedExtras : List String) : BookingPrice :=
  let startDate := dateValue pickup
  let endDate := dateValue dropoff
  let days : Int :=
    match startDate, endDate with
    | some s, some e2 => clampDays (rawDayCount s e2)
    | _, _ => 1
  let basePerDay := lookupOr0 cfg.carCategories category
  let baseTotal := basePerDay * (days : ℚ)
  let extrasTotal :=
    (selectedExtras.map (fun ex => lookupOr0 cfg.extras ex * (days : ℚ))).sum
  let subtotal := baseTotal + extrasTotal
  let depositAmount :=
    if cfg.depositPercent > 0 then round2 (subtotal * cfg.depositPercent / 100) else 0
  let total := round2 subtotal
  ⟨days, basePerDay, baseTotal, extrasTotal, subtotal, depositAmount, total⟩

/-- The JS `String.prototype.trim`: strip whitespace from both ends
(`Char.isWhitespace` approximates the ECMAScript white-space set). -/
def jsTrim (s : String) : String :=
  String.mk (((s.data.dropWhile Char.isWhitespace).reverse.dropWhile
    Char.isWhitespace).reverse)

/-- The JS `String.prototype.split` on a single-character separator, on
character lists; the result is never the empty list. -/
def jsSplitChars (sep : Char) : List Char → List (List Char)
  | [] => [[]]
  | c :: tl =>
    let r := jsSplitChars sep tl
    if c = sep then [] :: r
    else
      match r with
      | hd :: rest => (c :: hd) :: rest
      | [] => [[c]]

/-- The JS `String.prototype.split` on a single-character separator. -/
def jsSplit (s : String) (sep : Char) : List String :=
  (jsSplitChars sep s.data).map String.mk

/-- The JS `String.prototype.toLowerCase` (ASCII range). -/
def jsToLower (s : String) : String := String.mk (s.data.map Char.toLower)

/-- The slice of localStorage the admin auth flow reads and writes:
`adminPassword` (`getAdminPassword` returns `null` when unset, lines
90-92) and the `isAdmin` flag (lines 96-105). -/
structure AuthState where
  adminPassword : Option String
  isAdmin : Bool
  deriving DecidableEq

/-- The first-run password form submit listener (lines 153-165): trim the
input, reject with the length alert below 4 characters, else persist the
password, set the logged-in flag and report success. Returned with the
alert text shown. -/
def setupSubmit (s : AuthState) (input : String) : AuthState × String :=
  let newPwd := jsTrim input
  if newPwd.length < 4 then
    (s, "Ο κωδικός πρέπει να έχει τουλάχιστον 4 χαρακτήρες.")
  else
    ({ adminPassword := some newPwd, isAdmin := true },
     "Ο κωδικός αποθηκεύτηκε. Έχετε συνδεθεί ως διαχειριστής.")

/-- The login form submit listener (lines 179-191): compare the entered
password verbatim with the stored one (`===`; a string never equals the
`null` of an unset password), set the logged-in flag on match, else leave
the state alone and alert the mismatch. -/
def loginSubmit (s : AuthState) (entered : String) : AuthState × String :=
  if s.adminPassword = some entered then
    ({ s with isAdmin := true }, "Επιτυχής σύνδεση.")
  else (s, "Λάθος κωδικός.")

/-- Numeric value of a digit character. -/
def digitVal (c : Char) : Nat := c.toNat - 48

/-- Split a character list into its maximal digit prefix and the rest. -/
def readDigits : List Char → List Char × List Char
  | [] => ([], [])
  | c :: cs =>
    if c.isDigit then
      let p := readDigits cs
      (c :: p.1, p.2)
    else ([], c :: cs)

/-- Value of a digit string, most significant digit first. -/
def digitsToNat (ds : List Char) : Nat :=
  ds.foldl (fun a c => a * 10 + digitVal c) 0

/-- Magnitude part of `parseFloat`: a digit string with an optional
fractional part, at least one digit overall, trailing garbage ignored. -/
def parseFloatMag (cs : List Char) : Option ℚ :=
  let p := readDigits cs
  match p.2 with
  | '.' :: r2 =>
    let q := readDigits r2
    if p.1 = [] ∧ q.1 = [] then none
    else some ((digitsToNat p.1 : ℚ) + (digitsToNat q.1 : ℚ) / (10 : ℚ) ^ q.1.length)
  | _ => if p.1 = [] then none else some (digitsToNat p.1 : ℚ)

/-- The platform `parseFloat` as `saveSettings` uses it (decimal
notation): skip leading whitespace, optional sign, digits with an
optional fractional part; `none` models a NaN result. -/
def parseFloat (s : String) : Option ℚ :=
  let cs0 := s.data.dropWhile Char.isWhitespace
  match cs0 with
  | '-' :: tl => (parseFloatMag tl).map (fun q => -q)
  | '+' :: tl => parseFloatMag tl
  | _ => parseFloatMag cs0

/-- JS object insertion `obj[name] = v` on the string-keyed maps built by
`saveSettings`: overwrite in place when the key exists, else append. -/
def objInsert (m : List (String × ℚ)) (k : String) (v : ℚ) : List (String × ℚ) :=
  if m.any (fun p => p.1 = k) then
    m.map (fun p => if p.1 = k then (k, v) else p)
  else m ++ [(k, v)]

/-- The category/extras input parser of lines 683-688 and 698-703: split
on commas, split each pair on the first colon, trim both parts, keep a
pair only when the name and the price are non-empty and the price parses
as a number. -/
def parsePairs (input : String) : List (String × ℚ) :=
  (jsSplit input ',').foldl
    (fun acc pair =>
      match (jsSplit pair ':').map jsTrim with
      | name :: price :: _ =>
        if name ≠ "" ∧ price ≠ "" then
          match parseFloat price with
          | some v => objInsert acc name v
          | none => acc
        else acc
      | _ => acc) []

/-- The prompt/input answers driving one `saveSettings` run: the three
settings-panel text fields (always read), and the six `prompt` results,
`none` when the prompt was cancelled. -/
structure SettingsInput where
  phoneInput : String
  vipInput : String
  greetingInput : String
  pay : Option String
  catInput : Option String
  extrasInput : Option String
  depInput : Option String
  emailPrompt : Option String
  waInput : Option String
  deriving DecidableEq

/-- `saveSettings` (lines 669-742) as a transformer of the settings
record: the text fields fall back to `DEFAULTS` when empty after trimming
(lines 670-672); a cancelled (`null`) or empty prompt leaves payment
methods, categories, extras and the admin email unchanged; categories and
extras are replaced only when at least one valid pair was parsed (lines
689, 704); the deposit percentage is replaced only by a parsed value in
[0,100] (lines 711-717); the WhatsApp preference is recomputed from any
non-null answer (lines 730-733). -/
def saveSettings (s : Config) (inp : SettingsInput) : Config :=
  let phoneNumber :=
    if jsTrim inp.phoneInput = "" then DEFAULTS.phoneNumber
    else jsTrim inp.phoneInput
  let vipCode :=
    if jsTrim inp.vipInput = "" then DEFAULTS.vipCode else jsTrim inp.vipInput
  let vipGreeting :=
    if jsTrim inp.greetingInput = "" then DEFAULTS.vipGreeting
    else jsTrim inp.greetingInput
  let paymentMethods :=
    match inp.pay with
    | some pay =>
      if pay = "" then s.paymentMethods
      else ((jsSplit pay ',').map jsTrim).filter (fun m => m ≠ "")
    | none => s.paymentMethods
  let carCategories :=
    match inp.catInput with
    | some catInput =>
      if catInput = "" then s.carCategories
      else
        let newCats := parsePairs catInput
        if newCats = [] then s.carCategories else newCats
    | none => s.carCategories
  let extras :=
    match inp.extrasInput with
    | some extrasInput =>
      if extrasInput = "" then s.extras
      else
        let newExtras := parsePairs extrasInput
        if newExtras = [] then s.extras else newExtras
    | none => s.extras
  let depositPercent :=
    match inp.depInput with
    | some depInput =>
      match parseFloat depInput with
      | some parsed =>
        if 0 ≤ parsed ∧ parsed ≤ 100 then parsed else s.depositPercent
      | none => s.depositPercent
    | none => s.depositPercent
  let adminEmail :=
    match inp.emailPrompt with
    | some emailPrompt =>
      if emailPrompt = "" then s.adminEmail else jsTrim emailPrompt
    | none => s.adminEmail
  let useWhatsApp :=
    match inp.waInput with
    | some waInput =>
      let lowered := jsTrim (jsToLower waInput)
      lowered == "ναι" || lowered == "yes"
    | none => s.useWhatsApp
  { phoneNumber := phoneNumber, vipCode := vipCode, vipGreeting := vipGreeting,
    useWhatsApp := useWhatsApp, paymentMethods := paymentMethods,
    carCategories := carCategories, extras := extras,
    depositPercent := depositPercent, adminEmail := adminEmail }

/-- The double-quote character, written by code point to keep it apart
from string delimiters. -/
def qmark : Char := Char.ofNat 34

/-- The backslash character. -/
def bslash : Char := Char.ofNat 92

/-- The opening curly bracket. -/
def lbrace : Char := Char.ofNat 123

/-- The closing curly bracket. -/
def rbrace : Char := Char.ofNat 125

/-- Digit character of a value below ten. -/
def digitChr (d : Nat) : Char := Char.ofNat (48 + d)

/-- Decimal digits of a natural number, most significant first. -/
def natToDigits (n : Nat) : List Char :=
  if _h : n < 10 then [digitChr n]
  else natToDigits (n / 10) ++ [digitChr (n % 10)]
termination_by n
decreasing_by exact Nat.div_lt_self (by omega) (by omega)

mutual
/-- JSON values as `saveSetting`/`loadSetting` move them through
`JSON.stringify`/`JSON.parse` (lines 49-63): numbers (a decimal with
mantissa `m` and `e` digits after the point, value `m / 10 ^ e`),
booleans, strings, arrays, and string-keyed objects. -/
inductive JVal where
  | jnum (m : Int) (e : Nat)
  | jbool (b : Bool)
  | jstr (s : String)
  | jarr (xs : JList)
  | jobj (fs : JObj)
  deriving DecidableEq
inductive JList where
  | nil
  | cons (hd : JVal) (tl : JList)
  deriving DecidableEq
inductive JObj where
  | nil
  | cons (key : String) (val : JVal) (tl : JObj)
  deriving DecidableEq
end

/-- Pad a digit string with leading zeros until it is longer than `e`,
so a decimal point can be inserted `e` places from the right. -/
def padDigits (ds : List Char) (e : Nat) : List Char :=
  if ds.length ≤ e then List.replicate (e + 1 - ds.length) '0' ++ ds else ds

/-- Digits of `n` with a decimal point `e` places from the right
(no point when `e = 0`). -/
def numBody (n : Nat) (e : Nat) : List Char :=
  let ds := padDigits (natToDigits n) e
  if e = 0 then ds
  else ds.take (ds.length - e) ++ '.' :: ds.drop (ds.length - e)

/-- Serialized JSON number. -/
def strNum (m : Int) (e : Nat) : List Char :=
  (if m < 0 then ['-'] else []) ++ numBody m.natAbs e

/-- JSON string-body escaping: a backslash before every double quote and
backslash, all other characters verbatim. -/
def escapeChars : List Char → List Char
  | [] => []
  | c :: cs =>
    if c = qmark ∨ c = bslash then bslash :: c :: escapeChars cs
    else c :: escapeChars cs

/-- Serialized JSON string: quoted, body escaped. -/
def strString (s : String) : List Char := qmark :: (escapeChars s.data ++ [qmark])

mutual
/-- Serialization of JSON values, `JSON.stringify`. -/
def strVal : JVal → List Char
  | .jnum m e => strNum m e
  | .jbool true => ['t', 'r', 'u', 'e']
  | .jbool false => ['f', 'a', 'l', 's', 'e']
  | .jstr s => strString s
  | .jarr xs => '[' :: (strElems xs ++ [']'])
  | .jobj fs => lbrace :: (strMembers fs ++ [rbrace])
def strElems : JList → List Char
  | .nil => []
  | .cons v .nil => strVal v
  | .cons v tl => strVal v ++ ',' :: strElems tl
def strMembers : JObj → List Char
  | .nil => []
  | .cons k v .nil => strString k ++ ':' :: strVal v
  | .cons k v tl => strString k ++ ':' :: strVal v ++ ',' :: strMembers tl
end

/-- Parse a JSON string body up to its closing quote, undoing the
escaping; fails at end of input inside the string. -/
def parseStrBody : List Char → Option (List Char × List Char)
  | [] => none
  | c :: cs =>
    if c = qmark then some ([], cs)
    else if c = bslash then
      match cs with
      | [] => none
      | d :: cs2 => (parseStrBody cs2).map (fun p => (d :: p.1, p.2))
    else (parseStrBody cs).map (fun p => (c :: p.1, p.2))

/-- Parse an unsigned JSON number: mantissa and count of fraction
digits. -/
def parseUNum (cs : List Char) : Option (Nat × Nat × List Char) :=
  let p := readDigits cs
  if p.1 = [] then none
  else
    match p.2 with
    | c :: r2 =>
      if c = '.' then
        let q := readDigits r2
        if q.1 = [] then none
        else some (digitsToNat (p.1 ++ q.1), q.1.length, q.2)
      else some (digitsToNat p.1, 0, c :: r2)
    | [] => some (digitsToNat p.1, 0, [])

/-- Parse a JSON number with optional leading minus. -/
def parseNum (cs : List Char) : Option (JVal × List Char) :=
  match cs with
  | [] => none
  | c :: tl =>
    if c = '-' then
      (parseUNum tl).map (fun p => (JVal.jnum (-(p.1 : Int)) p.2.1, p.2.2))
    else
      (parseUNum (c :: tl)).map (fun p => (JVal.jnum (p.1 : Int) p.2.1, p.2.2))

mutual
/-- Recursive-descent JSON parser, fuelled: a value, the elements of an
array up to `]`, the members of an object up to the closing brace. -/
def parseVal : Nat → List Char → Option (JVal × List Char)
  | 0, _ => none
  | _ + 1, [] => none
  | f + 1, c :: r =>
    if c = qmark then
      (parseStrBody r).map (fun p => (JVal.jstr (String.mk p.1), p.2))
    else if c = '[' then (parseElems f r).map (fun p => (JVal.jarr p.1, p.2))
    else if c = lbrace then (parseMembers f r).map (fun p => (JVal.jobj p.1, p.2))
    else if c = 't' then
      match r with
      | 'r' :: 'u' :: 'e' :: r2 => some (JVal.jbool true, r2)
      | _ => none
    else if c = 'f' then
      match r with
      | 'a' :: 'l' :: 's' :: 'e' :: r2 => some (JVal.jbool false, r2)
      | _ => none
    else parseNum (c :: r)
def parseElems : Nat → List Char → Option (JList × List Char)
  | 0, _ => none
  | f + 1, cs =>
    match parseVal f cs with
    | some (v, r2) =>
      match r2 with
      | ',' :: r3 => (parseElems f r3).map (fun p => (JList.cons v p.1, p.2))
      | ']' :: r3 => some (JList.cons v JList.nil, r3)
      | _ => none
    | none =>
      match cs with
      | c :: r => if c = ']' then some (JList.nil, r) else none
      | [] => none
def parseMembers : Nat → List Char → Option (JObj × List Char)
  | 0, _ => none
  | f + 1, cs =>
    match cs with
    | [] => none
    | c :: r =>
      if c = rbrace then some (JObj.nil, r)
      else if c = qmark then
        match parseStrBody r with
        | some (k, r1) =>
          match r1 with
          | ':' :: r2 =>
            match parseVal f r2 with
            | some (v, r3) =>
              match r3 with
              | ',' :: r4 =>
                (parseMembers f r4).map
                  (fun p => (JObj.cons (String.mk k) v p.1, p.2))
              | c2 :: r4 =>
                if c2 = rbrace then some (JObj.cons (String.mk k) v JObj.nil, r4)
                else none
              | [] => none
            | none => none
          | _ => none
        | none => none
      else none
end

/-- `JSON.stringify`. -/
def jsonStringify (v : JVal) : String := String.mk (strVal v)

/-- `JSON.parse`, total: `none` models the exception the `try` of lines
52-56 catches. The whole input must be consumed. -/
def jsonParse (s : String) : Option JVal :=
  match parseVal (2 * s.data.length) s.data with
  | some (v, []) => some v
  | _ => none

/-- `localStorage.getItem`. -/
def getItem : List (String × String) → String → Option String
  | [], _ => none
  | (k, v) :: tl, key => if k = key then some v else getItem tl key

/-- `localStorage.setItem`: overwrite in place, else append. -/
def setItem (st : List (String × String)) (k v : String) : List (String × String) :=
  if st.any (fun p => p.1 = k) then
    st.map (fun p => if p.1 = k then (k, v) else p)
  else st ++ [(k, v)]

/-- `saveSetting` (lines 61-63). -/
def saveSetting (st : List (String × String)) (key : String) (value : JVal) :
    List (String × String) :=
  setItem st key (jsonStringify value)

/-- `loadSetting` (lines 49-59): a stored non-empty string is parsed as
JSON, the raw string is returned when parsing fails, and the `DEFAULTS`
entry for the key is returned when nothing (or an empty string, which is
falsy) is stored. -/
def loadSetting (defaults : String → Option JVal)
    (st : List (String × String)) (key : String) : Option JVal :=
  match getItem st key with
  | some stored =>
    if stored = "" then defaults key
    else
      match jsonParse stored with
      | some v => some v
      | none => some (JVal.jstr stored)
  | none => defaults key

mutual
/-- Fuel budget of the round-trip argument: one unit per parser call. -/
def sizeV : JVal → Nat
  | .jarr xs => sizeL xs + 1
  | .jobj fs => sizeO fs + 1
  | _ => 1
def sizeL : JList → Nat
  | .nil => 1
  | .cons v tl => sizeV v + sizeL tl + 1
def sizeO : JObj → Nat
  | .nil => 1
  | .cons _ v tl => sizeV v + sizeO tl + 1
end

/-- Inputs a JSON number may be followed by without extending it: end of
input, or a character that is neither a digit nor a decimal point. -/
def goodRest : List Char → Prop
  | [] => True
  | c :: _ => c.isDigit = false ∧ c ≠ '.'

/-- Day count of a `calculatePrice` result, `none` on validation
failure. -/
def calcResultDays : CalcResult → Option Int
  | .failure _ => none
  | .quote q => some q.days

/-! Theorems. -/

theorem one_le_clampDays (o : Option Int) : 1 ≤ clampDays o := by
  cases o with
  | none => simp [clampDays]
  | some n =>
    simp only [clampDays]
    split <;> omega

theorem clampDays_of_lt (p d : Int) (h : p < d) :
    clampDays (rawDayCount (some p) (some d)) =
      ⌈((d - p : Int) : ℚ) / (1000 * 60 * 60 * 24)⌉ := by
  have h0 : (0 : ℚ) < ((d - p : Int) : ℚ) / (1000 * 60 * 60 * 24) := by
    apply div_pos
    · exact_mod_cast sub_pos.mpr h
    · norm_num
  have h1 : 0 < ⌈((d - p : Int) : ℚ) / (1000 * 60 * 60 * 24)⌉ := Int.ceil_pos.mpr h0
  simp only [rawDayCount, clampDays]
  rw [if_neg (by omega)]

theorem clampDays_of_le (p d : Int) (h : d ≤ p) :
    clampDays (rawDayCount (some p) (some d)) = 1 := by
  have h0 : ((d - p : Int) : ℚ) / (1000 * 60 * 60 * 24) ≤ 0 := by
    apply div_nonpos_of_nonpos_of_nonneg
    · exact_mod_cast sub_nonpos.mpr h
    · norm_num
  have h1 : ⌈((d - p : Int) : ℚ) / (1000 * 60 * 60 * 24)⌉ ≤ 0 := by
    rw [Int.ceil_le]
    exact_mod_cast h0
  simp only [rawDayCount, clampDays]
  rw [if_pos (by omega)]

/-- Claim C1: in both `calculatePrice` and `handleBookingSubmit`, valid
dates with dropoff strictly after pickup give a day count of
`⌈(dropoff - pickup) / 86400000⌉`; valid dates with dropoff at or before
pickup, and unparseable (non-empty) dates, give exactly 1; every computed
day count is at least 1 (never 0, and both functions are total, so no
error is possible). -/
theorem dayCount_spec (cfg : Config) (category payment : String)
    (sel : List String) (hcat : category ≠ "") :
    (∀ p d : Int, p < d →
      calcResultDays
          (calculatePrice cfg (.valid p) (.valid d) category payment sel) =
        some ⌈((d - p : Int) : ℚ) / (1000 * 60 * 60 * 24)⌉ ∧
      (handleBookingSubmitPrice cfg (.valid p) (.valid d) category sel).days =
        ⌈((d - p : Int) : ℚ) / (1000 * 60 * 60 * 24)⌉) ∧
    (∀ p d : Int, d ≤ p →
      calcResultDays
          (calculatePrice cfg (.valid p) (.valid d) category payment sel) =
        some 1 ∧
      (handleBookingSubmitPrice cfg (.valid p) (.valid d) category sel).days = 1) ∧
    (∀ pickup dropoff : DateInput, (pickup = .invalid ∨ dropoff = .invalid) →
      pickup ≠ .empty → dropoff ≠ .empty →
      calcResultDays (calculatePrice cfg pickup dropoff category payment sel) =
        some 1 ∧
      (handleBookingSubmitPrice cfg pickup dropoff category sel).days = 1) ∧
    (∀ (pickup dropoff : DateInput) (q : Quote),
      calculatePrice cfg pickup dropoff category payment sel = .quote q →
      1 ≤ q.days) ∧
    (∀ pickup dropoff : DateInput,
      1 ≤ (handleBookingSubmitPrice cfg pickup dropoff category sel).days) := by
  refine ⟨?_, ?_, ?_, ?_, ?_⟩
  · intro p d h
    constructor
    · simp only [calculatePrice, dateValue, if_neg hcat, calcResultDays]
      rw [clampDays_of_lt p d h]
    · simp only [handleBookingSubmitPrice, dateValue]
      rw [clampDays_of_lt p d h]
  · intro p d h
    constructor
    · simp only [calculatePrice, dateValue, if_neg hcat, calcResultDays]
      rw [clampDays_of_le p d h]
    · simp only [handleBookingSubmitPrice, dateValue]
      rw [clampDays_of_le p d h]
  · intro pickup dropoff hinv hpe hde
    cases pickup <;> cases dropoff <;>
      simp_all [calculatePrice, handleBookingSubmitPrice, dateValue,
        calcResultDays, rawDayCount, clampDays, if_neg hcat]
  · intro pickup dropoff q h
    cases pickup <;> cases dropoff <;>
      simp only [calculatePrice, dateValue, if_neg hcat] at h <;>
      first
        | exact CalcResult.noConfusion h
        | (cases h; simpa using one_le_clampDays _)
  · intro pickup dropoff
    cases pickup <;> cases dropoff <;>
      simp only [handleBookingSubmitPrice, dateValue] <;>
      first
        | omega
        | exact one_le_clampDays _

theorem dayCount_spec_witness :
    ("SUV" : String) ≠ "" ∧ (0 : Int) < 2 * 86400000 ∧
    calcResultDays
        (calculatePrice DEFAULTS (.valid 0) (.valid (2 * 86400000)) "SUV" "" []) =
      some ⌈((2 * 86400000 - 0 : Int) : ℚ) / (1000 * 60 * 60 * 24)⌉ := by
  refine ⟨by decide, by decide, ?_⟩
  exact ((dayCount_spec DEFAULTS "SUV" "" [] (by decide)).1 0 (2 * 86400000)
    (by decide)).1

/-- Counterexample to claim C2 as stated: a non-empty pickup string that
does not parse to a valid date builds a truthy `Invalid Date` object, so
the validation check of line 438 passes and a quote (with day count
forced to 1) is produced instead of a validation failure. -/
theorem unparseable_pickup_yields_quote :
    calculatePrice DEFAULTS .invalid (.valid 0) "Economy" "" [] =
      .quote ⟨1, 30, 30, 0, 30, 9, 30, none⟩ := by
  simp [calculatePrice, dateValue, rawDayCount, clampDays, DEFAULTS,
    lookupOr0, round2, jsRound]
  norm_num

/-- Claim C2 (amended): `calculatePrice` reports the validation prompt
exactly when the pickup value is absent (empty), the dropoff value is
absent, or the category is absent; in every other case — including
non-empty unparseable dates — a quote is computed. -/
theorem validationFailure_iff (cfg : Config) (pickup dropoff : DateInput)
    (category payment : String) (sel : List String) :
    calculatePrice cfg pickup dropoff category payment sel =
        .failure validationMessage ↔
      (pickup = .empty ∨ dropoff = .empty ∨ category = "") := by
  by_cases hcat : category = "" <;>
    cases pickup <;> cases dropoff <;>
      simp [calculatePrice, dateValue, hcat]

theorem validationFailure_iff_witness :
    calculatePrice DEFAULTS .empty (.valid 0) "Economy" "" [] =
      .failure validationMessage :=
  (validationFailure_iff DEFAULTS .empty (.valid 0) "Economy" "" []).mpr
    (Or.inl rfl)

theorem round2_close (x : ℚ) : |round2 x - x| ≤ 1 / 100 := by
  have h1 : ((⌊x * 100 + 1 / 2⌋ : Int) : ℚ) ≤ x * 100 + 1 / 2 := Int.floor_le _
  have h2 : x * 100 - 1 / 2 ≤ ((⌊x * 100 + 1 / 2⌋ : Int) : ℚ) := by
    have := Int.lt_floor_add_one (x * 100 + 1 / 2)
    linarith
  rw [round2, jsRound, abs_le]
  constructor <;> [linarith; linarith]

/-- Claim C3: in both computations the displayed total is
`round2(base + extras)`, the deposit is
`round2((base + extras) * depositPercent / 100)` when the deposit
percentage is positive and exactly 0 otherwise, and each is within 0.01
of the exact (unrounded) value. -/
theorem rounding_spec (cfg : Config) (pickup dropoff : DateInput)
    (category payment : String) (sel : List String) :
    (∀ q : Quote,
      calculatePrice cfg pickup dropoff category payment sel = .quote q →
      q.total = round2 (q.baseTotal + q.extrasTotal) ∧
      q.depositAmount =
        (if cfg.depositPercent > 0 then
          round2 ((q.baseTotal + q.extrasTotal) * cfg.depositPercent / 100)
        else 0) ∧
      |q.total - (q.baseTotal + q.extrasTotal)| ≤ 1 / 100 ∧
      |q.depositAmount -
          (if cfg.depositPercent > 0 then
            (q.baseTotal + q.extrasTotal) * cfg.depositPercent / 100
          else 0)| ≤ 1 / 100) ∧
    ((handleBookingSubmitPrice cfg pickup dropoff category sel).total =
      round2 ((handleBookingSubmitPrice cfg pickup dropoff category sel).baseTotal +
        (handleBookingSubmitPrice cfg pickup dropoff category sel).extrasTotal) ∧
     (handleBookingSubmitPrice cfg pickup dropoff category sel).depositAmount =
      (if cfg.depositPercent > 0 then
        round2 (((handleBookingSubmitPrice cfg pickup dropoff category sel).baseTotal +
          (handleBookingSubmitPrice cfg pickup dropoff category sel).extrasTotal) *
          cfg.depositPercent / 100)
      else 0) ∧
     |(handleBookingSubmitPrice cfg pickup dropoff category sel).total -
        ((handleBookingSubmitPrice cfg pickup dropoff category sel).baseTotal +
         (handleBookingSubmitPrice cfg pickup dropoff category sel).extrasTotal)| ≤
       1 / 100 ∧
     |(handleBookingSubmitPrice cfg pickup dropoff category sel).depositAmount -
        (if cfg.depositPercent > 0 then
          ((handleBookingSubmitPrice cfg pickup dropoff category sel).baseTotal +
           (handleBookingSubmitPrice cfg pickup dropoff category sel).extrasTotal) *
            cfg.depositPercent / 100
        else 0)| ≤ 1 / 100) := by
  constructor
  · intro q h
    cases pickup <;> cases dropoff <;>
      simp only [calculatePrice, dateValue] at h <;>
      first
        | exact CalcResult.noConfusion h
        | (split at h
           · exact CalcResult.noConfusion h
           · cases h
             refine ⟨rfl, rfl, round2_close _, ?_⟩
             by_cases hdp : cfg.depositPercent > 0
             · simpa [hdp] using round2_close _
             · simp [hdp])
  · simp only [handleBookingSubmitPrice]
    refine ⟨trivial, trivial, round2_close _, ?_⟩
    by_cases hdp : cfg.depositPercent > 0
    · simpa [hdp] using round2_close _
    · simp [hdp]

theorem rounding_spec_witness :
    calculatePrice DEFAULTS (.valid 0) (.valid 86400000) "SUV" "" [] =
      .quote ⟨1, 50, 50, 0, 50, 15, 50, none⟩ ∧
    (Quote.mk 1 50 50 0 50 15 50 none).total =
      round2 ((Quote.mk 1 50 50 0 50 15 50 none).baseTotal +
        (Quote.mk 1 50 50 0 50 15 50 none).extrasTotal) := by
  have hq : calculatePrice DEFAULTS (.valid 0) (.valid 86400000) "SUV" "" [] =
      .quote ⟨1, 50, 50, 0, 50, 15, 50, none⟩ := by
    simp [calculatePrice, dateValue, rawDayCount, clampDays, DEFAULTS,
      lookupOr0, round2, jsRound]
    norm_num
  exact ⟨hq,
    ((rounding_spec DEFAULTS (.valid 0) (.valid 86400000) "SUV" "" []).1 _ hq).1⟩

/-- Claim C6: whenever the live summary computes a quote,
`handleBookingSubmit` computes exactly the same day count and price
components from the same inputs and configuration. -/
theorem booking_matches_quote (cfg : Config) (pickup dropoff : DateInput)
    (category payment : String) (sel : List String) (q : Quote)
    (h : calculatePrice cfg pickup dropoff category payment sel = .quote q) :
    handleBookingSubmitPrice cfg pickup dropoff category sel =
      ⟨q.days, q.basePricePerDay, q.baseTotal, q.extrasTotal, q.subTotal,
       q.depositAmount, q.total⟩ := by
  cases pickup <;> cases dropoff <;>
    simp only [calculatePrice, dateValue] at h <;>
    first
      | exact CalcResult.noConfusion h
      | (split at h
         · exact CalcResult.noConfusion h
         · cases h
           rfl)

theorem booking_matches_quote_witness :
    calculatePrice DEFAULTS (.valid 0) (.valid 86400000) "Economy" "" ["GPS"] =
      .quote ⟨1, 30, 30, 5, 35, (21 / 2 : ℚ), 35, none⟩ ∧
    handleBookingSubmitPrice DEFAULTS (.valid 0) (.valid 86400000) "Economy"
        ["GPS"] =
      ⟨(Quote.mk 1 30 30 5 35 (21 / 2 : ℚ) 35 none).days,
       (Quote.mk 1 30 30 5 35 (21 / 2 : ℚ) 35 none).basePricePerDay,
       (Quote.mk 1 30 30 5 35 (21 / 2 : ℚ) 35 none).baseTotal,
       (Quote.mk 1 30 30 5 35 (21 / 2 : ℚ) 35 none).extrasTotal,
       (Quote.mk 1 30 30 5 35 (21 / 2 : ℚ) 35 none).subTotal,
       (Quote.mk 1 30 30 5 35 (21 / 2 : ℚ) 35 none).depositAmount,
       (Quote.mk 1 30 30 5 35 (21 / 2 : ℚ) 35 none).total⟩ := by
  have hq : calculatePrice DEFAULTS (.valid 0) (.valid 86400000) "Economy" ""
      ["GPS"] = .quote ⟨1, 30, 30, 5, 35, (21 / 2 : ℚ), 35, none⟩ := by
    simp [calculatePrice, dateValue, rawDayCount, clampDays, DEFAULTS,
      lookupOr0, round2, jsRound]
    norm_num
  exact ⟨hq,
    booking_matches_quote DEFAULTS (.valid 0) (.valid 86400000) "Economy" ""
      ["GPS"] _ hq⟩

theorem lookupOr0_eq_zero (m : List (String × ℚ)) (k : String)
    (hk : k ∉ m.map Prod.fst) : lookupOr0 m k = 0 := by
  induction m with
  | nil => rfl
  | cons hd tl ih =>
    obtain ⟨k2, v⟩ := hd
    simp only [List.map_cons, List.mem_cons] at hk
    push_neg at hk
    simp only [lookupOr0, if_neg (Ne.symm hk.1), ih hk.2]

theorem lookupStr_eq_none (m : List (String × String)) (k : String)
    (hk : k ∉ m.map Prod.fst) : lookupStr m k = none := by
  induction m with
  | nil => rfl
  | cons hd tl ih =>
    obtain ⟨k2, v⟩ := hd
    simp only [List.map_cons, List.mem_cons] at hk
    push_neg at hk
    simp only [lookupStr, if_neg (Ne.symm hk.1), ih hk.2]

theorem extras_sum_filter (m : List (String × ℚ)) (x : ℚ) (sel : List String) :
    (sel.map fun k => lookupOr0 m k * x).sum =
      (((sel.filter fun k => decide (k ∈ m.map Prod.fst)).map
        fun k => lookupOr0 m k * x).sum) := by
  induction sel with
  | nil => rfl
  | cons c tl ih =>
    by_cases hc : c ∈ m.map Prod.fst
    · simp [List.filter_cons, hc, ih]
    · simp [List.filter_cons, hc, lookupOr0_eq_zero m c hc, ih]

/-- Claim C7: a category name missing from the configured categories
contributes a base price of 0; selected extras missing from the
configured extras contribute nothing (the extras total equals the total
over the known selected extras only); an unknown payment method falls
back to the generic instruction; all lookups are total functions, so none
can raise an error. -/
theorem unknown_lookup_spec (cfg : Config) (pickup dropoff : DateInput)
    (category payment : String) (sel : List String) (q : Quote)
    (h : calculatePrice cfg pickup dropoff category payment sel = .quote q) :
    (category ∉ cfg.carCategories.map Prod.fst →
      q.basePricePerDay = 0 ∧ q.baseTotal = 0) ∧
    q.extrasTotal =
      (((sel.filter fun k => decide (k ∈ cfg.extras.map Prod.fst)).map
        fun k => lookupOr0 cfg.extras k * (q.days : ℚ)).sum) ∧
    (payment ≠ "" → payment ∉ PAYMENT_INSTRUCTIONS.map Prod.fst →
      q.instructions = some genericPaymentMessage) := by
  cases pickup <;> cases dropoff <;>
    simp only [calculatePrice, dateValue] at h <;>
    first
      | exact CalcResult.noConfusion h
      | (split at h
         · exact CalcResult.noConfusion h
         · cases h
           refine ⟨?_, ?_, ?_⟩
           · intro hcat
             have h0 := lookupOr0_eq_zero cfg.carCategories category hcat
             exact ⟨h0, by simp [h0]⟩
           · exact extras_sum_filter cfg.extras _ sel
           · intro hpay hmem
             simp [if_neg hpay, lookupStr_eq_none PAYMENT_INSTRUCTIONS payment hmem])

theorem unknown_lookup_spec_witness :
    calculatePrice DEFAULTS (.valid 0) (.valid 86400000) "Van" "Cash"
        ["Jetpack"] =
      .quote ⟨1, 0, 0, 0, 0, 0, 0, some genericPaymentMessage⟩ ∧
    ("Van" : String) ∉ DEFAULTS.carCategories.map Prod.fst ∧
    ("Cash" : String) ≠ "" ∧
    ("Cash" : String) ∉ PAYMENT_INSTRUCTIONS.map Prod.fst ∧
    (Quote.mk 1 0 0 0 0 0 0 (some genericPaymentMessage)).basePricePerDay = 0 ∧
    (Quote.mk 1 0 0 0 0 0 0 (some genericPaymentMessage)).instructions =
      some genericPaymentMessage := by
  have hq : calculatePrice DEFAULTS (.valid 0) (.valid 86400000) "Van" "Cash"
      ["Jetpack"] =
      .quote ⟨1, 0, 0, 0, 0, 0, 0, some genericPaymentMessage⟩ := by
    simp [calculatePrice, dateValue, rawDayCount, clampDays, DEFAULTS,
      lookupOr0, round2, jsRound, lookupStr, PAYMENT_INSTRUCTIONS]
    norm_num
  have hspec := unknown_lookup_spec DEFAULTS (.valid 0) (.valid 86400000) "Van"
    "Cash" ["Jetpack"] _ hq
  refine ⟨hq, by decide, by decide, by decide,
    (hspec.1 (by decide)).1, hspec.2.2 (by decide) (by decide)⟩

/-- Claim C4: with no password set, a submitted password of trimmed
length below 4 is rejected with the validation alert and the state
(including the absent password) is unchanged; of trimmed length at least
4, it is persisted and the state moves directly to logged-in. Logged out,
a wrong password leaves the state unchanged; the exactly-equal password
logs in. -/
theorem auth_spec (s : AuthState) (input entered : String) :
    (s.adminPassword = none → (jsTrim input).length < 4 →
      setupSubmit s input =
        (s, "Ο κωδικός πρέπει να έχει τουλάχιστον 4 χαρακτήρες.")) ∧
    (s.adminPassword = none → 4 ≤ (jsTrim input).length →
      setupSubmit s input =
        ({ adminPassword := some (jsTrim input), isAdmin := true },
         "Ο κωδικός αποθηκεύτηκε. Έχετε συνδεθεί ως διαχειριστής.")) ∧
    (∀ stored : String, s.adminPassword = some stored → s.isAdmin = false →
      entered ≠ stored → loginSubmit s entered = (s, "Λάθος κωδικός.")) ∧
    (∀ stored : String, s.adminPassword = some stored → entered = stored →
      (loginSubmit s entered).1.isAdmin = true ∧
      (loginSubmit s entered).1.adminPassword = some stored ∧
      (loginSubmit s entered).2 = "Επιτυχής σύνδεση.") := by
  refine ⟨?_, ?_, ?_, ?_⟩
  · intro _ h2
    simp only [setupSubmit, if_pos h2]
  · intro _ h2
    simp only [setupSubmit, if_neg (not_lt.mpr h2)]
  · intro stored hst _ hne
    have hcond : ¬(s.adminPassword = some entered) := by
      rw [hst]
      exact fun h => hne (Option.some.inj h).symm
    simp only [loginSubmit, if_neg hcond]
  · intro stored hst heq
    have hcond : s.adminPassword = some entered := by rw [hst, heq]
    refine ⟨?_, ?_, ?_⟩ <;> simp only [loginSubmit, if_pos hcond]
    exact hst

theorem auth_spec_witness :
    (AuthState.mk none false).adminPassword = none ∧
    (jsTrim "abc").length < 4 ∧
    setupSubmit ⟨none, false⟩ "abc" =
      (⟨none, false⟩, "Ο κωδικός πρέπει να έχει τουλάχιστον 4 χαρακτήρες.") ∧
    4 ≤ (jsTrim "abcd").length ∧
    setupSubmit ⟨none, false⟩ "abcd" =
      ({ adminPassword := some (jsTrim "abcd"), isAdmin := true },
       "Ο κωδικός αποθηκεύτηκε. Έχετε συνδεθεί ως διαχειριστής.") ∧
    (AuthState.mk (some "pw1234") false).adminPassword = some "pw1234" ∧
    ("wrong" : String) ≠ "pw1234" ∧
    loginSubmit ⟨some "pw1234", false⟩ "wrong" =
      (⟨some "pw1234", false⟩, "Λάθος κωδικός.") ∧
    (loginSubmit ⟨some "pw1234", false⟩ "pw1234").1.isAdmin = true := by
  refine ⟨rfl, by decide, ?_, by decide, ?_, rfl, by decide, ?_, ?_⟩
  · exact (auth_spec ⟨none, false⟩ "abc" "x").1 rfl (by decide)
  · exact (auth_spec ⟨none, false⟩ "abcd" "x").2.1 rfl (by decide)
  · exact (auth_spec ⟨some "pw1234", false⟩ "x" "wrong").2.2.1 "pw1234" rfl rfl
      (by decide)
  · exact ((auth_spec ⟨some "pw1234", false⟩ "x" "pw1234").2.2.2 "pw1234" rfl
      rfl).1

/-- Counterexample to claim C5 as stated: the settings-panel phone field
falls back to the built-in default when left empty (line 670,
`value.trim() || DEFAULTS.phoneNumber`), so with a prior phone number
different from the default, an empty edit (every prompt cancelled) does
not leave the prior value unchanged. -/
theorem cancelled_edit_resets_phone :
    (saveSettings { DEFAULTS with phoneNumber := "+301111111111" }
        ⟨"", "", "", none, none, none, none, none, none⟩).phoneNumber =
      "+302101234567" ∧
    ({ DEFAULTS with phoneNumber := "+301111111111" } : Config).phoneNumber ≠
      "+302101234567" := by
  constructor
  · rfl
  · decide

theorem parseFloat_empty : parseFloat "" = none := rfl

/-- Claim C5 (amended): a cancelled or empty edit leaves the prior value
unchanged for the prompt-based fields — payment methods, vehicle
categories, extras, deposit percentage, admin email — and a cancelled
chat-channel prompt leaves that preference unchanged; the three
settings-panel text fields (phone, VIP code, VIP greeting) instead
revert to the built-in defaults when left empty. -/
theorem settings_frame_spec (s : Config) (inp : SettingsInput) :
    (inp.pay = none ∨ inp.pay = some "" →
      (saveSettings s inp).paymentMethods = s.paymentMethods) ∧
    (inp.catInput = none ∨ inp.catInput = some "" →
      (saveSettings s inp).carCategories = s.carCategories) ∧
    (inp.extrasInput = none ∨ inp.extrasInput = some "" →
      (saveSettings s inp).extras = s.extras) ∧
    (inp.depInput = none ∨ inp.depInput = some "" →
      (saveSettings s inp).depositPercent = s.depositPercent) ∧
    (inp.emailPrompt = none ∨ inp.emailPrompt = some "" →
      (saveSettings s inp).adminEmail = s.adminEmail) ∧
    (inp.waInput = none → (saveSettings s inp).useWhatsApp = s.useWhatsApp) ∧
    (jsTrim inp.phoneInput = "" →
      (saveSettings s inp).phoneNumber = DEFAULTS.phoneNumber) ∧
    (jsTrim inp.vipInput = "" →
      (saveSettings s inp).vipCode = DEFAULTS.vipCode) ∧
    (jsTrim inp.greetingInput = "" →
      (saveSettings s inp).vipGreeting = DEFAULTS.vipGreeting) := by
  refine ⟨?_, ?_, ?_, ?_, ?_, ?_, ?_, ?_, ?_⟩
  · rintro (h | h) <;> simp [saveSettings, h]
  · rintro (h | h) <;> simp [saveSettings, h]
  · rintro (h | h) <;> simp [saveSettings, h]
  · rintro (h | h) <;> simp [saveSettings, h, parseFloat_empty]
  · rintro (h | h) <;> simp [saveSettings, h]
  · intro h
    simp [saveSettings, h]
  · intro h
    simp [saveSettings, h]
  · intro h
    simp [saveSettings, h]
  · intro h
    simp [saveSettings, h]

theorem settings_frame_spec_witness :
    (SettingsInput.mk "" "" "" none (some "") none (some "") none none).pay =
      none ∧
    (saveSettings { DEFAULTS with paymentMethods := ["Cash"] }
        ⟨"", "", "", none, some "", none, some "", none, none⟩).paymentMethods =
      ({ DEFAULTS with paymentMethods := ["Cash"] } : Config).paymentMethods := by
  refine ⟨rfl, ?_⟩
  exact (settings_frame_spec { DEFAULTS with paymentMethods := ["Cash"] }
    ⟨"", "", "", none, some "", none, some "", none, none⟩).1 (Or.inl rfl)

theorem saveSettings_depositPercent (s : Config) (inp : SettingsInput) :
    (saveSettings s inp).depositPercent =
      (match inp.depInput with
       | some depInput =>
         match parseFloat depInput with
         | some parsed =>
           if 0 ≤ parsed ∧ parsed ≤ 100 then parsed else s.depositPercent
         | none => s.depositPercent
       | none => s.depositPercent) := rfl

/-- Claim C9: every `saveSettings` run preserves the [0,100] range of the
deposit percentage, and a provided edit is persisted exactly when it
parses to a value in [0,100] (otherwise the prior value is kept). -/
theorem depositPercent_spec (s : Config) (inp : SettingsInput)
    (hlo : 0 ≤ s.depositPercent) (hhi : s.depositPercent ≤ 100) :
    (0 ≤ (saveSettings s inp).depositPercent ∧
      (saveSettings s inp).depositPercent ≤ 100) ∧
    (∀ (d : String) (p : ℚ), inp.depInput = some d → parseFloat d = some p →
      0 ≤ p → p ≤ 100 → (saveSettings s inp).depositPercent = p) ∧
    (∀ d : String, inp.depInput = some d → parseFloat d = none →
      (saveSettings s inp).depositPercent = s.depositPercent) ∧
    (∀ (d : String) (p : ℚ), inp.depInput = some d → parseFloat d = some p →
      (p < 0 ∨ 100 < p) →
      (saveSettings s inp).depositPercent = s.depositPercent) := by
  refine ⟨?_, ?_, ?_, ?_⟩
  · cases hd : inp.depInput with
    | none =>
      rw [saveSettings_depositPercent, hd]
      exact ⟨hlo, hhi⟩
    | some d =>
      cases hp : parseFloat d with
      | none =>
        rw [saveSettings_depositPercent, hd]
        simp only [hp]
        exact ⟨hlo, hhi⟩
      | some p =>
        by_cases hin : 0 ≤ p ∧ p ≤ 100
        · rw [saveSettings_depositPercent, hd]
          simp only [hp, if_pos hin]
          exact hin
        · rw [saveSettings_depositPercent, hd]
          simp only [hp, if_neg hin]
          exact ⟨hlo, hhi⟩
  · intro d p hd hp h0 h100
    rw [saveSettings_depositPercent, hd]
    simp only [hp, if_pos (And.intro h0 h100)]
  · intro d hd hp
    rw [saveSettings_depositPercent, hd]
    simp only [hp]
  · intro d p hd hp hout
    rw [saveSettings_depositPercent, hd]
    have : ¬(0 ≤ p ∧ p ≤ 100) := by
      rcases hout with h | h
      · exact fun hc => absurd hc.1 (not_le.mpr h)
      · exact fun hc => absurd hc.2 (not_le.mpr h)
    simp only [hp, if_neg this]

theorem depositPercent_spec_witness :
    (0 : ℚ) ≤ DEFAULTS.depositPercent ∧ DEFAULTS.depositPercent ≤ 100 ∧
    (SettingsInput.mk "" "" "" none none none (some "45") none none).depInput =
      some "45" ∧
    parseFloat "45" = some 45 ∧ (0 : ℚ) ≤ 45 ∧ (45 : ℚ) ≤ 100 ∧
    (saveSettings DEFAULTS
        ⟨"", "", "", none, none, none, some "45", none, none⟩).depositPercent =
      45 := by
  refine ⟨by norm_num [DEFAULTS], by norm_num [DEFAULTS], rfl, by decide,
    by norm_num, by norm_num, ?_⟩
  exact (depositPercent_spec DEFAULTS
      ⟨"", "", "", none, none, none, some "45", none, none⟩
      (by norm_num [DEFAULTS]) (by norm_num [DEFAULTS])).2.1 "45" 45 rfl
    (by decide) (by norm_num) (by norm_num)

theorem saveSettings_carCategories (s : Config) (inp : SettingsInput) :
    (saveSettings s inp).carCategories =
      (match inp.catInput with
       | some catInput =>
         if catInput = "" then s.carCategories
         else
           if parsePairs catInput = [] then s.carCategories
           else parsePairs catInput
       | none => s.carCategories) := rfl

theorem saveSettings_extras (s : Config) (inp : SettingsInput) :
    (saveSettings s inp).extras =
      (match inp.extrasInput with
       | some extrasInput =>
         if extrasInput = "" then s.extras
         else
           if parsePairs extrasInput = [] then s.extras
           else parsePairs extrasInput
       | none => s.extras) := rfl

/-- Claim C10: a non-empty categories (or extras) input that parses to no
valid name-price pair leaves the prior mapping unchanged, and a
`saveSettings` run never replaces a non-empty categories or extras
mapping by an empty one. -/
theorem mappings_nonempty_spec (s : Config) (inp : SettingsInput) :
    (∀ c : String, inp.catInput = some c → parsePairs c = [] →
      (saveSettings s inp).carCategories = s.carCategories) ∧
    (∀ c : String, inp.extrasInput = some c → parsePairs c = [] →
      (saveSettings s inp).extras = s.extras) ∧
    (s.carCategories ≠ [] → (saveSettings s inp).carCategories ≠ []) ∧
    (s.extras ≠ [] → (saveSettings s inp).extras ≠ []) := by
  refine ⟨?_, ?_, ?_, ?_⟩
  · intro c hc hp
    rw [saveSettings_carCategories, hc]
    by_cases h0 : c = "" <;> simp [h0, hp]
  · intro c hc hp
    rw [saveSettings_extras, hc]
    by_cases h0 : c = "" <;> simp [h0, hp]
  · intro hne
    rw [saveSettings_carCategories]
    cases hc : inp.catInput with
    | none => exact hne
    | some c =>
      by_cases h0 : c = ""
      · simpa [h0] using hne
      · by_cases hp : parsePairs c = [] <;> simp [h0, hp, hne]
  · intro hne
    rw [saveSettings_extras]
    cases hc : inp.extrasInput with
    | none => exact hne
    | some c =>
      by_cases h0 : c = ""
      · simpa [h0] using hne
      · by_cases hp : parsePairs c = [] <;> simp [h0, hp, hne]

theorem mappings_nonempty_spec_witness :
    (SettingsInput.mk "" "" "" none (some "bad, :7, x:") none none none
        none).catInput = some "bad, :7, x:" ∧
    parsePairs "bad, :7, x:" = [] ∧
    (saveSettings DEFAULTS
        ⟨"", "", "", none, some "bad, :7, x:", none, none, none,
         none⟩).carCategories = DEFAULTS.carCategories ∧
    DEFAULTS.carCategories ≠ [] ∧
    (saveSettings DEFAULTS
        ⟨"", "", "", none, some "bad, :7, x:", none, none, none,
         none⟩).carCategories ≠ [] := by
  have hspec := mappings_nonempty_spec DEFAULTS
    ⟨"", "", "", none, some "bad, :7, x:", none, none, none, none⟩
  refine ⟨rfl, by decide, hspec.1 "bad, :7, x:" rfl (by decide), by decide,
    hspec.2.2.1 (by decide)⟩

theorem digitChr_isDigit (d : Nat) (h : d < 10) : (digitChr d).isDigit = true := by
  interval_cases d <;> decide

theorem digitVal_digitChr (d : Nat) (h : d < 10) : digitVal (digitChr d) = d := by
  interval_cases d <;> decide

theorem foldl_digits (ds : List Char) :
    ∀ a : Nat, ds.foldl (fun a c => a * 10 + digitVal c) a =
      a * 10 ^ ds.length + digitsToNat ds := by
  induction ds with
  | nil => intro a; simp [digitsToNat]
  | cons c tl ih =>
    intro a
    simp only [List.foldl_cons, List.length_cons, digitsToNat] at ih ⊢
    rw [ih (a * 10 + digitVal c), ih (0 * 10 + digitVal c)]
    ring

theorem digitsToNat_append (a b : List Char) :
    digitsToNat (a ++ b) = digitsToNat a * 10 ^ b.length + digitsToNat b := by
  simp only [digitsToNat, List.foldl_append]
  rw [foldl_digits b (List.foldl (fun a c => a * 10 + digitVal c) 0 a)]
  rfl

theorem digitsToNat_replicate_zero (k : Nat) :
    digitsToNat (List.replicate k '0') = 0 := by
  induction k with
  | zero => rfl
  | succ n ih =>
    simp only [List.replicate_succ, digitsToNat, List.foldl_cons]
    simpa [digitsToNat, digitVal] using ih

theorem natToDigits_ne_nil (n : Nat) : natToDigits n ≠ [] := by
  rw [natToDigits]
  split <;> simp

theorem natToDigits_digits (n : Nat) :
    ∀ c ∈ natToDigits n, c.isDigit = true := by
  induction n using Nat.strong_induction_on with
  | _ n ih =>
    rw [natToDigits]
    split
    · next h =>
      intro c hc
      rw [List.mem_singleton] at hc
      rw [hc]
      exact digitChr_isDigit n h
    · next h =>
      intro c hc
      rw [List.mem_append] at hc
      rcases hc with hc | hc
      · exact ih (n / 10) (Nat.div_lt_self (by omega) (by omega)) c hc
      · rw [List.mem_singleton] at hc
        rw [hc]
        exact digitChr_isDigit _ (Nat.mod_lt _ (by omega))

theorem digitsToNat_natToDigits (n : Nat) :
    digitsToNat (natToDigits n) = n := by
  induction n using Nat.strong_induction_on with
  | _ n ih =>
    rw [natToDigits]
    split
    · next h =>
      simp [digitsToNat, digitVal_digitChr n h]
    · next h =>
      rw [digitsToNat_append]
      rw [ih (n / 10) (Nat.div_lt_self (by omega) (by omega))]
      simp only [List.length_singleton, pow_one]
      have hm : digitsToNat [digitChr (n % 10)] = n % 10 := by
        simp [digitsToNat, digitVal_digitChr _ (Nat.mod_lt _ (by omega))]
      rw [hm]
      omega

/-- The rest of the input after a digit run must not begin with another
digit. -/
def noDigitHead : List Char → Prop
  | [] => True
  | c :: _ => c.isDigit = false

theorem goodRest_noDigitHead (rest : List Char) (h : goodRest rest) :
    noDigitHead rest := by
  cases rest with
  | nil => trivial
  | cons c r => exact h.1

theorem readDigits_append (ds rest : List Char)
    (hds : ∀ c ∈ ds, c.isDigit = true) (hrest : noDigitHead rest) :
    readDigits (ds ++ rest) = (ds, rest) := by
  induction ds with
  | nil =>
    cases rest with
    | nil => rfl
    | cons c r =>
      have hc : c.isDigit = false := hrest
      simp only [List.nil_append, readDigits]
      rw [if_neg (by simp [hc])]
  | cons c tl ih =>
    simp only [List.cons_append, readDigits, List.append_eq]
    rw [if_pos (hds c (List.mem_cons_self c tl))]
    rw [ih (fun x hx => hds x (List.mem_cons_of_mem c hx))]

theorem padDigits_digits (ds : List Char) (e : Nat)
    (hds : ∀ c ∈ ds, c.isDigit = true) :
    ∀ c ∈ padDigits ds e, c.isDigit = true := by
  intro c hc
  rw [padDigits] at hc
  split at hc
  · rw [List.mem_append] at hc
    rcases hc with hc | hc
    · rw [List.eq_of_mem_replicate hc]
      decide
    · exact hds c hc
  · exact hds c hc

theorem padDigits_length (ds : List Char) (e : Nat) (h : ds ≠ []) :
    e + 1 ≤ (padDigits ds e).length := by
  rw [padDigits]
  have h0 : 1 ≤ ds.length := by
    cases ds with
    | nil => exact absurd rfl h
    | cons c tl => simp
  split
  · next hle => simp [List.length_append, List.length_replicate]; omega
  · next hgt => omega

theorem digitsToNat_padDigits (ds : List Char) (e : Nat) :
    digitsToNat (padDigits ds e) = digitsToNat ds := by
  rw [padDigits]
  split
  · rw [digitsToNat_append, digitsToNat_replicate_zero]
    simp
  · rfl

theorem numBody_zero (n : Nat) : numBody n 0 = padDigits (natToDigits n) 0 := rfl

theorem numBody_pos (n e : Nat) (he : e ≠ 0) :
    numBody n e =
      (padDigits (natToDigits n) e).take
          ((padDigits (natToDigits n) e).length - e) ++
        '.' :: (padDigits (natToDigits n) e).drop
          ((padDigits (natToDigits n) e).length - e) := by
  rw [numBody]
  simp [he]

theorem parseUNum_numBody (n e : Nat) (rest : List Char)
    (hrest : goodRest rest) :
    parseUNum (numBody n e ++ rest) = some (n, e, rest) := by
  have hPd : ∀ c ∈ padDigits (natToDigits n) e, c.isDigit = true :=
    padDigits_digits _ e (natToDigits_digits n)
  have hPn : digitsToNat (padDigits (natToDigits n) e) =
      digitsToNat (natToDigits n) := digitsToNat_padDigits _ e
  have hPl : e + 1 ≤ (padDigits (natToDigits n) e).length :=
    padDigits_length _ e (natToDigits_ne_nil n)
  by_cases he : e = 0
  · subst he
    have hne : padDigits (natToDigits n) 0 ≠ [] := by
      intro h0
      rw [h0] at hPl
      simp at hPl
    rw [numBody_zero]
    simp only [parseUNum,
      readDigits_append _ rest hPd (goodRest_noDigitHead rest hrest),
      if_neg hne]
    cases rest with
    | nil => simp [hPn, digitsToNat_natToDigits]
    | cons c r =>
      have hdot : c ≠ '.' := hrest.2
      simp [if_neg hdot, hPn, digitsToNat_natToDigits]
  · set P := padDigits (natToDigits n) e with hP
    set k := P.length - e with hk
    have hk1 : 1 ≤ k := by omega
    have hke : k ≤ P.length := by omega
    have hsplit : P.take k ++ P.drop k = P := List.take_append_drop k P
    have htl : (P.take k).length = k := by
      rw [List.length_take]
      omega
    have hdl : (P.drop k).length = e := by
      rw [List.length_drop]
      omega
    have htd : ∀ c ∈ P.take k, c.isDigit = true := fun c hc =>
      hPd c (List.mem_of_mem_take hc)
    have hdd : ∀ c ∈ P.drop k, c.isDigit = true := fun c hc =>
      hPd c (List.mem_of_mem_drop hc)
    have htne : P.take k ≠ [] := by
      intro h0
      rw [h0] at htl
      simp at htl
      omega
    have hdne : P.drop k ≠ [] := by
      intro h0
      rw [h0] at hdl
      simp at hdl
      omega
    have hnd1 : noDigitHead ('.' :: (P.drop k ++ rest)) := by
      show ('.' : Char).isDigit = false
      decide
    rw [numBody_pos n e he, ← hP, ← hk, List.append_assoc, List.cons_append]
    simp only [parseUNum, readDigits_append _ _ htd hnd1, if_neg htne,
      readDigits_append _ rest hdd (goodRest_noDigitHead rest hrest),
      if_neg hdne, eq_self_iff_true, if_true, hdl]
    rw [hsplit, hPn, digitsToNat_natToDigits]

theorem numBody_head_digit (n e : Nat) :
    ∃ c cs, numBody n e = c :: cs ∧ c.isDigit = true := by
  have hPd : ∀ c ∈ padDigits (natToDigits n) e, c.isDigit = true :=
    padDigits_digits _ e (natToDigits_digits n)
  have hPl : e + 1 ≤ (padDigits (natToDigits n) e).length :=
    padDigits_length _ e (natToDigits_ne_nil n)
  by_cases he : e = 0
  · subst he
    rw [numBody_zero]
    cases hcase : padDigits (natToDigits n) 0 with
    | nil => rw [hcase] at hPl; simp at hPl
    | cons c cs =>
      exact ⟨c, cs, rfl, hPd c (by rw [hcase]; exact List.mem_cons_self c cs)⟩
  · rw [numBody_pos n e he]
    cases hcase : padDigits (natToDigits n) e with
    | nil => rw [hcase] at hPl; simp at hPl
    | cons c cs =>
      have hlen : e + 1 ≤ (c :: cs : List Char).length := hcase ▸ hPl
      obtain ⟨k0, hk0⟩ : ∃ k0, (c :: cs : List Char).length - e = k0 + 1 :=
        ⟨(c :: cs : List Char).length - e - 1, by omega⟩
      rw [hk0, List.take_succ_cons, List.cons_append]
      refine ⟨c, _, rfl, hPd c (by rw [hcase]; exact List.mem_cons_self c cs)⟩

theorem strNum_head (m : Int) (e : Nat) :
    ∃ c cs, strNum m e = c :: cs ∧ (c.isDigit = true ∨ c = '-') := by
  rw [strNum]
  by_cases hm : m < 0
  · exact ⟨'-', numBody m.natAbs e, by simp [hm], Or.inr rfl⟩
  · obtain ⟨c, cs, hb, hc⟩ := numBody_head_digit m.natAbs e
    exact ⟨c, cs, by simp [hm, hb], Or.inl hc⟩

theorem isDigit_ne_special (c : Char) (h : c.isDigit = true) :
    c ≠ qmark ∧ c ≠ '[' ∧ c ≠ lbrace ∧ c ≠ 't' ∧ c ≠ 'f' ∧ c ≠ '-' ∧
      c ≠ '.' ∧ c ≠ ']' ∧ c ≠ rbrace ∧ c ≠ ',' := by
  refine ⟨?_, ?_, ?_, ?_, ?_, ?_, ?_, ?_, ?_, ?_⟩ <;>
    exact fun hq => absurd (hq ▸ h) (by decide)

theorem parseNum_strNum (m : Int) (e : Nat) (rest : List Char)
    (hrest : goodRest rest) :
    parseNum (strNum m e ++ rest) = some (JVal.jnum m e, rest) := by
  by_cases hm : m < 0
  · have hs : strNum m e = '-' :: numBody m.natAbs e := by simp [strNum, hm]
    rw [hs, List.cons_append, parseNum, if_pos rfl,
      parseUNum_numBody m.natAbs e rest hrest]
    simp only [Option.map_some']
    rw [show -((m.natAbs : Nat) : Int) = m by omega]
  · have hs : strNum m e = numBody m.natAbs e := by simp [strNum, hm]
    obtain ⟨c, cs, hb, hc⟩ := numBody_head_digit m.natAbs e
    have hdash : c ≠ '-' := (isDigit_ne_special c hc).2.2.2.2.2.1
    rw [hs, hb, List.cons_append, parseNum, if_neg hdash, ← List.cons_append,
      ← hb, parseUNum_numBody m.natAbs e rest hrest]
    simp only [Option.map_some']
    rw [show ((m.natAbs : Nat) : Int) = m by omega]

theorem sizeV_pos (v : JVal) : 1 ≤ sizeV v := by
  cases v <;> simp [sizeV]

theorem sizeL_pos (xs : JList) : 1 ≤ sizeL xs := by
  cases xs <;> simp [sizeL]

theorem sizeO_pos (fs : JObj) : 1 ≤ sizeO fs := by
  cases fs <;> simp [sizeO]

theorem parseVal_not_special (f : Nat) (c : Char) (r : List Char)
    (h1 : c ≠ qmark) (h2 : c ≠ '[') (h3 : c ≠ lbrace) (h4 : c ≠ 't')
    (h5 : c ≠ 'f') :
    parseVal (f + 1) (c :: r) = parseNum (c :: r) := by
  simp only [parseVal, if_neg h1, if_neg h2, if_neg h3, if_neg h4, if_neg h5]

theorem parseVal_rbrack (f : Nat) (r : List Char) :
    parseVal f (']' :: r) = none := by
  cases f with
  | zero => rfl
  | succ f =>
    rw [parseVal_not_special f ']' r (by decide) (by decide) (by decide)
      (by decide) (by decide)]
    rfl

theorem parseStrBody_cons (c : Char) (cs : List Char) :
    parseStrBody (c :: cs) =
      if c = qmark then some ([], cs)
      else if c = bslash then
        match cs with
        | [] => none
        | d :: cs2 => (parseStrBody cs2).map (fun p => (d :: p.1, p.2))
      else (parseStrBody cs).map (fun p => (c :: p.1, p.2)) := by
  rw [parseStrBody.eq_def]

theorem parseStrBody_escape (l rest : List Char) :
    parseStrBody (escapeChars l ++ qmark :: rest) = some (l, rest) := by
  induction l with
  | nil =>
    show parseStrBody (qmark :: rest) = some ([], rest)
    rw [parseStrBody_cons, if_pos rfl]
  | cons c tl ih =>
    by_cases hc : c = qmark ∨ c = bslash
    · have he : escapeChars (c :: tl) = bslash :: c :: escapeChars tl := by
        show (if c = qmark ∨ c = bslash then bslash :: c :: escapeChars tl
          else c :: escapeChars tl) = _
        rw [if_pos hc]
      rw [he, List.cons_append, List.cons_append, parseStrBody_cons,
        if_neg (show ¬bslash = qmark by decide), if_pos rfl]
      show (parseStrBody (escapeChars tl ++ qmark :: rest)).map
          (fun p => (c :: p.1, p.2)) = some (c :: tl, rest)
      rw [ih]
      rfl
    · have he : escapeChars (c :: tl) = c :: escapeChars tl := by
        show (if c = qmark ∨ c = bslash then bslash :: c :: escapeChars tl
          else c :: escapeChars tl) = _
        rw [if_neg hc]
      push_neg at hc
      rw [he, List.cons_append, parseStrBody_cons, if_neg hc.1, if_neg hc.2,
        ih]
      rfl

theorem parseVal_succ_cons (f : Nat) (c : Char) (r : List Char) :
    parseVal (f + 1) (c :: r) =
      (if c = qmark then
        (parseStrBody r).map (fun p => (JVal.jstr (String.mk p.1), p.2))
      else if c = '[' then (parseElems f r).map (fun p => (JVal.jarr p.1, p.2))
      else if c = lbrace then
        (parseMembers f r).map (fun p => (JVal.jobj p.1, p.2))
      else if c = 't' then
        match r with
        | 'r' :: 'u' :: 'e' :: r2 => some (JVal.jbool true, r2)
        | _ => none
      else if c = 'f' then
        match r with
        | 'a' :: 'l' :: 's' :: 'e' :: r2 => some (JVal.jbool false, r2)
        | _ => none
      else parseNum (c :: r)) := by
  rw [parseVal.eq_def]

theorem parseElems_succ (f : Nat) (cs : List Char) :
    parseElems (f + 1) cs =
      (match parseVal f cs with
       | some (v, r2) =>
         (match r2 with
          | ',' :: r3 => (parseElems f r3).map (fun p => (JList.cons v p.1, p.2))
          | ']' :: r3 => some (JList.cons v JList.nil, r3)
          | _ => none)
       | none =>
         (match cs with
          | c :: r => if c = ']' then some (JList.nil, r) else none
          | [] => none)) := rfl

theorem parseMembers_succ (f : Nat) (cs : List Char) :
    parseMembers (f + 1) cs =
      (match cs with
       | [] => none
       | c :: r =>
         if c = rbrace then some (JObj.nil, r)
         else if c = qmark then
           match parseStrBody r with
           | some (k, r1) =>
             match r1 with
             | ':' :: r2 =>
               match parseVal f r2 with
               | some (v, r3) =>
                 match r3 with
                 | ',' :: r4 =>
                   (parseMembers f r4).map
                     (fun p => (JObj.cons (String.mk k) v p.1, p.2))
                 | c2 :: r4 =>
                   if c2 = rbrace then
                     some (JObj.cons (String.mk k) v JObj.nil, r4)
                   else none
                 | [] => none
               | none => none
             | _ => none
           | none => none
         else none) := rfl

mutual
theorem rtV : ∀ (v : JVal) (f : Nat) (rest : List Char), sizeV v ≤ f →
    goodRest rest → parseVal f (strVal v ++ rest) = some (v, rest)
  | v, 0, _, hf, _ => absurd (le_trans (sizeV_pos v) hf) (by omega)
  | .jnum m e, f + 1, rest, _, hr => by
    obtain ⟨c, cs, hs, hc⟩ := strNum_head m e
    have hne : parseVal (f + 1) (strNum m e ++ rest) =
        parseNum (strNum m e ++ rest) := by
      rw [hs]
      simp only [List.cons_append]
      rcases hc with hd | hdash
      · obtain ⟨h1, h2, h3, h4, h5, _⟩ := isDigit_ne_special c hd
        exact parseVal_not_special f c _ h1 h2 h3 h4 h5
      · subst hdash
        exact parseVal_not_special f '-' _ (by decide) (by decide) (by decide)
          (by decide) (by decide)
    show parseVal (f + 1) (strNum m e ++ rest) = some (.jnum m e, rest)
    rw [hne, parseNum_strNum m e rest hr]
  | .jbool true, f + 1, rest, _, _ => by
    show parseVal (f + 1) ('t' :: 'r' :: 'u' :: 'e' :: rest) =
      some (.jbool true, rest)
    rw [parseVal_succ_cons, if_neg (by decide : ¬('t' : Char) = qmark),
      if_neg (by decide : ¬('t' : Char) = '['),
      if_neg (by decide : ¬('t' : Char) = lbrace), if_pos rfl]
    rfl
  | .jbool false, f + 1, rest, _, _ => by
    show parseVal (f + 1) ('f' :: 'a' :: 'l' :: 's' :: 'e' :: rest) =
      some (.jbool false, rest)
    rw [parseVal_succ_cons, if_neg (by decide : ¬('f' : Char) = qmark),
      if_neg (by decide : ¬('f' : Char) = '['),
      if_neg (by decide : ¬('f' : Char) = lbrace),
      if_neg (by decide : ¬('f' : Char) = 't'), if_pos rfl]
    rfl
  | .jstr s, f + 1, rest, _, _ => by
    show parseVal (f + 1) ((qmark :: (escapeChars s.data ++ [qmark])) ++ rest) =
      some (.jstr s, rest)
    rw [List.cons_append, List.append_assoc]
    simp only [List.singleton_append]
    rw [parseVal_succ_cons, if_pos rfl, parseStrBody_escape]
    rfl
  | .jarr xs, f + 1, rest, hf, _ => by
    have hxs : sizeL xs ≤ f := by
      simp only [sizeV] at hf
      omega
    show parseVal (f + 1) (('[' :: (strElems xs ++ [']'])) ++ rest) =
      some (.jarr xs, rest)
    rw [List.cons_append, List.append_assoc]
    simp only [List.singleton_append]
    rw [parseVal_succ_cons, if_neg (by decide : ¬('[' : Char) = qmark),
      if_pos rfl, rtL xs f rest hxs]
    rfl
  | .jobj fs, f + 1, rest, hf, _ => by
    have hfs : sizeO fs ≤ f := by
      simp only [sizeV] at hf
      omega
    show parseVal (f + 1) ((lbrace :: (strMembers fs ++ [rbrace])) ++ rest) =
      some (.jobj fs, rest)
    rw [List.cons_append, List.append_assoc]
    simp only [List.singleton_append]
    rw [parseVal_succ_cons, if_neg (by decide : ¬lbrace = qmark),
      if_neg (by decide : ¬lbrace = '['), if_pos rfl, rtO fs f rest hfs]
    rfl
theorem rtL : ∀ (xs : JList) (f : Nat) (rest : List Char), sizeL xs ≤ f →
    parseElems f (strElems xs ++ ']' :: rest) = some (xs, rest)
  | xs, 0, _, hf => absurd (le_trans (sizeL_pos xs) hf) (by omega)
  | .nil, f + 1, rest, _ => by
    show parseElems (f + 1) (']' :: rest) = some (.nil, rest)
    rw [parseElems_succ, parseVal_rbrack]
    rfl
  | .cons v .nil, f + 1, rest, hf => by
    have hv : sizeV v ≤ f := by
      simp only [sizeL] at hf
      omega
    show parseElems (f + 1) (strVal v ++ ']' :: rest) = some (.cons v .nil, rest)
    rw [parseElems_succ, rtV v f (']' :: rest) hv ⟨by decide, by decide⟩]
    rfl
  | .cons v (.cons w tl), f + 1, rest, hf => by
    have hv : sizeV v ≤ f := by
      simp only [sizeL] at hf
      omega
    have htl : sizeL (JList.cons w tl) ≤ f := by
      simp only [sizeL] at hf ⊢
      omega
    show parseElems (f + 1)
        ((strVal v ++ ',' :: strElems (.cons w tl)) ++ ']' :: rest) =
      some (.cons v (.cons w tl), rest)
    rw [List.append_assoc]
    simp only [List.cons_append]
    rw [parseElems_succ,
      rtV v f (',' :: (strElems (.cons w tl) ++ ']' :: rest)) hv
        ⟨by decide, by decide⟩]
    show (parseElems f (strElems (.cons w tl) ++ ']' :: rest)).map
        (fun p => (JList.cons v p.1, p.2)) = some (.cons v (.cons w tl), rest)
    rw [rtL (.cons w tl) f rest htl]
    rfl
theorem rtO : ∀ (fs : JObj) (f : Nat) (rest : List Char), sizeO fs ≤ f →
    parseMembers f (strMembers fs ++ rbrace :: rest) = some (fs, rest)
  | fs, 0, _, hf => absurd (le_trans (sizeO_pos fs) hf) (by omega)
  | .nil, f + 1, rest, _ => by
    show parseMembers (f + 1) (rbrace :: rest) = some (.nil, rest)
    rw [parseMembers_succ]
    rfl
  | .cons k v .nil, f + 1, rest, hf => by
    have hv : sizeV v ≤ f := by
      simp only [sizeO] at hf
      omega
    show parseMembers (f + 1)
        (((qmark :: (escapeChars k.data ++ [qmark])) ++ ':' :: strVal v) ++
          rbrace :: rest) = some (.cons k v .nil, rest)
    simp only [List.append_assoc, List.cons_append, List.singleton_append]
    rw [parseMembers_succ]
    show (if qmark = rbrace then some (JObj.nil, escapeChars k.data ++
          qmark :: ':' :: (strVal v ++ rbrace :: rest))
      else if qmark = qmark then
        match parseStrBody (escapeChars k.data ++
            qmark :: ':' :: (strVal v ++ rbrace :: rest)) with
        | some (k3, r1) =>
          match r1 with
          | ':' :: r2 =>
            match parseVal f r2 with
            | some (v2, r3) =>
              match r3 with
              | ',' :: r4 =>
                (parseMembers f r4).map
                  (fun p => (JObj.cons (String.mk k3) v2 p.1, p.2))
              | c2 :: r4 =>
                if c2 = rbrace then
                  some (JObj.cons (String.mk k3) v2 JObj.nil, r4)
                else none
              | [] => none
            | none => none
          | _ => none
        | none => none
      else none) = some (.cons k v .nil, rest)
    rw [if_neg (by decide : ¬qmark = rbrace), if_pos rfl]
    rw [show escapeChars k.data ++ qmark :: ':' :: (strVal v ++ rbrace :: rest) =
      escapeChars k.data ++ qmark :: (':' :: (strVal v ++ rbrace :: rest))
      from rfl]
    rw [parseStrBody_escape]
    show (match parseVal f (strVal v ++ rbrace :: rest) with
      | some (v2, r3) =>
        match r3 with
        | ',' :: r4 =>
          (parseMembers f r4).map
            (fun p => (JObj.cons (String.mk k.data) v2 p.1, p.2))
        | c2 :: r4 =>
          if c2 = rbrace then
            some (JObj.cons (String.mk k.data) v2 JObj.nil, r4)
          else none
        | [] => none
      | none => none) = some (.cons k v .nil, rest)
    rw [rtV v f (rbrace :: rest) hv ⟨by decide, by decide⟩]
    rfl
  | .cons k v (.cons k2 w tl), f + 1, rest, hf => by
    have hv : sizeV v ≤ f := by
      simp only [sizeO] at hf
      omega
    have htl : sizeO (JObj.cons k2 w tl) ≤ f := by
      simp only [sizeO] at hf ⊢
      omega
    show parseMembers (f + 1)
        (((qmark :: (escapeChars k.data ++ [qmark])) ++ ':' :: strVal v ++
            ',' :: strMembers (.cons k2 w tl)) ++ rbrace :: rest) =
      some (.cons k v (.cons k2 w tl), rest)
    simp only [List.append_assoc, List.cons_append, List.singleton_append]
    rw [parseMembers_succ]
    show (if qmark = rbrace then some (JObj.nil, escapeChars k.data ++
          qmark :: ':' :: (strVal v ++
            ',' :: (strMembers (.cons k2 w tl) ++ rbrace :: rest)))
      else if qmark = qmark then
        match parseStrBody (escapeChars k.data ++
            qmark :: ':' :: (strVal v ++
              ',' :: (strMembers (.cons k2 w tl) ++ rbrace :: rest))) with
        | some (k3, r1) =>
          match r1 with
          | ':' :: r2 =>
            match parseVal f r2 with
            | some (v2, r3) =>
              match r3 with
              | ',' :: r4 =>
                (parseMembers f r4).map
                  (fun p => (JObj.cons (String.mk k3) v2 p.1, p.2))
              | c2 :: r4 =>
                if c2 = rbrace then
                  some (JObj.cons (String.mk k3) v2 JObj.nil, r4)
                else none
              | [] => none
            | none => none
          | _ => none
        | none => none
      else none) = some (.cons k v (.cons k2 w tl), rest)
    rw [if_neg (by decide : ¬qmark = rbrace), if_pos rfl]
    rw [show escapeChars k.data ++ qmark :: ':' :: (strVal v ++
        ',' :: (strMembers (JObj.cons k2 w tl) ++ rbrace :: rest)) =
      escapeChars k.data ++ qmark :: (':' :: (strVal v ++
        ',' :: (strMembers (JObj.cons k2 w tl) ++ rbrace :: rest))) from rfl]
    rw [parseStrBody_escape]
    show (match parseVal f (strVal v ++
          ',' :: (strMembers (.cons k2 w tl) ++ rbrace :: rest)) with
      | some (v2, r3) =>
        match r3 with
        | ',' :: r4 =>
          (parseMembers f r4).map
            (fun p => (JObj.cons (String.mk k.data) v2 p.1, p.2))
        | c2 :: r4 =>
          if c2 = rbrace then
            some (JObj.cons (String.mk k.data) v2 JObj.nil, r4)
          else none
        | [] => none
      | none => none) = some (.cons k v (.cons k2 w tl), rest)
    rw [rtV v f (',' :: (strMembers (.cons k2 w tl) ++ rbrace :: rest)) hv
      ⟨by decide, by decide⟩]
    show (parseMembers f (strMembers (.cons k2 w tl) ++ rbrace :: rest)).map
        (fun p => (JObj.cons (String.mk k.data) v p.1, p.2)) =
      some (.cons k v (.cons k2 w tl), rest)
    rw [rtO (.cons k2 w tl) f rest htl]
    rfl
end

theorem strNum_length_pos (m : Int) (e : Nat) : 1 ≤ (strNum m e).length := by
  obtain ⟨c, cs, hs, _⟩ := strNum_head m e
  rw [hs]
  simp

mutual
theorem sizeV_le_length : ∀ v : JVal, sizeV v + 1 ≤ 2 * (strVal v).length
  | .jnum m e => by
    have := strNum_length_pos m e
    show sizeV (.jnum m e) + 1 ≤ 2 * (strNum m e).length
    simp only [sizeV]
    omega
  | .jbool true => by
    show sizeV (.jbool true) + 1 ≤ 2 * (['t', 'r', 'u', 'e'] : List Char).length
    simp [sizeV]
  | .jbool false => by
    show sizeV (.jbool false) + 1 ≤
      2 * (['f', 'a', 'l', 's', 'e'] : List Char).length
    simp [sizeV]
  | .jstr s => by
    show sizeV (.jstr s) + 1 ≤
      2 * (qmark :: (escapeChars s.data ++ [qmark])).length
    simp only [sizeV, List.length_cons, List.length_append,
      List.length_singleton]
    omega
  | .jarr xs => by
    have := sizeL_le_length xs
    show sizeV (.jarr xs) + 1 ≤ 2 * ('[' :: (strElems xs ++ [']'])).length
    simp only [sizeV, List.length_cons, List.length_append,
      List.length_singleton] at this ⊢
    omega
  | .jobj fs => by
    have := sizeO_le_length fs
    show sizeV (.jobj fs) + 1 ≤ 2 * (lbrace :: (strMembers fs ++ [rbrace])).length
    simp only [sizeV, List.length_cons, List.length_append,
      List.length_singleton] at this ⊢
    omega
theorem sizeL_le_length : ∀ xs : JList, sizeL xs ≤ 2 * (strElems xs).length + 1
  | .nil => by simp [sizeL, strElems]
  | .cons v .nil => by
    have := sizeV_le_length v
    show sizeL (.cons v .nil) ≤ 2 * (strVal v).length + 1
    simp only [sizeL]
    omega
  | .cons v (.cons w tl) => by
    have h1 := sizeV_le_length v
    have h2 := sizeL_le_length (.cons w tl)
    show sizeL (.cons v (.cons w tl)) ≤
      2 * (strVal v ++ ',' :: strElems (.cons w tl)).length + 1
    simp only [sizeL, List.length_append, List.length_cons] at h2 ⊢
    omega
theorem sizeO_le_length : ∀ fs : JObj, sizeO fs ≤ 2 * (strMembers fs).length + 1
  | .nil => by simp [sizeO, strMembers]
  | .cons k v .nil => by
    have := sizeV_le_length v
    show sizeO (.cons k v .nil) ≤
      2 * ((qmark :: (escapeChars k.data ++ [qmark])) ++ ':' :: strVal v).length + 1
    simp only [sizeO, List.length_append, List.length_cons,
      List.length_singleton]
    omega
  | .cons k v (.cons k2 w tl) => by
    have h1 := sizeV_le_length v
    have h2 := sizeO_le_length (.cons k2 w tl)
    show sizeO (.cons k v (.cons k2 w tl)) ≤
      2 * ((qmark :: (escapeChars k.data ++ [qmark])) ++ ':' :: strVal v ++
        ',' :: strMembers (.cons k2 w tl)).length + 1
    simp only [sizeO, List.length_append, List.length_cons,
      List.length_singleton] at h2 ⊢
    omega
end

theorem strVal_ne_nil (v : JVal) : strVal v ≠ [] := by
  intro h
  have := sizeV_le_length v
  rw [h] at this
  simp at this

theorem jsonParse_stringify (v : JVal) :
    jsonParse (jsonStringify v) = some v := by
  have hdata : (jsonStringify v).data = strVal v := rfl
  rw [jsonParse, hdata]
  have hfuel : sizeV v ≤ 2 * (strVal v).length := by
    have := sizeV_le_length v
    omega
  have := rtV v (2 * (strVal v).length) [] hfuel trivial
  rw [List.append_nil] at this
  rw [this]

theorem getItem_append_self (st : List (String × String)) (k v : String)
    (h : st.any (fun p => p.1 = k) = false) :
    getItem (st ++ [(k, v)]) k = some v := by
  induction st with
  | nil => simp [getItem]
  | cons hd tl ih =>
    obtain ⟨k2, w⟩ := hd
    simp only [List.any_cons, Bool.or_eq_false_iff] at h
    simp only [List.cons_append, getItem]
    rw [if_neg (by simpa using h.1)]
    exact ih h.2

theorem getItem_map_overwrite (st : List (String × String)) (k v : String)
    (h : st.any (fun p => p.1 = k) = true) :
    getItem (st.map (fun p => if p.1 = k then (k, v) else p)) k = some v := by
  induction st with
  | nil => simp at h
  | cons hd tl ih =>
    obtain ⟨k2, w⟩ := hd
    by_cases hk : k2 = k
    · rw [List.map_cons,
        show (if (k2, w).1 = k then (k, v) else (k2, w)) = (k, v) from
          by simp [hk],
        getItem, if_pos rfl]
    · simp only [List.any_cons, Bool.or_eq_true_iff] at h
      rcases h with h | h
      · exact absurd (by simpa using h) hk
      · rw [List.map_cons,
          show (if (k2, w).1 = k then (k, v) else (k2, w)) = (k2, w) from
            by simp [hk],
          getItem, if_neg hk]
        exact ih h

theorem getItem_setItem (st : List (String × String)) (k v : String) :
    getItem (setItem st k v) k = some v := by
  rw [setItem]
  cases h : st.any (fun p => p.1 = k) with
  | false =>
    rw [if_neg (by simp [h])]
    exact getItem_append_self st k v h
  | true =>
    rw [if_pos (by simp [h])]
    exact getItem_map_overwrite st k v h

theorem jsonStringify_ne_empty (v : JVal) : jsonStringify v ≠ "" := by
  intro h
  have hdata : strVal v = [] := congrArg String.data h
  exact strVal_ne_nil v hdata

/-- Claim C8: the configuration store round-trips every supported value
shape — for every key and JSON value (number, boolean, string, array,
object), `loadSetting` after `saveSetting` returns exactly the stored
value (in this model equality is exact, which subsumes the allowance that
mapping key order may differ); and a stored non-empty string that does
not parse as JSON is returned verbatim as a raw string, with no error
raised (all functions are total). -/
theorem store_roundtrip_spec :
    (∀ (defaults : String → Option JVal) (st : List (String × String))
        (key : String) (v : JVal),
      loadSetting defaults (saveSetting st key v) key = some v) ∧
    (∀ (defaults : String → Option JVal) (st : List (String × String))
        (key s : String), getItem st key = some s → s ≠ "" →
      jsonParse s = none → loadSetting defaults st key = some (JVal.jstr s)) := by
  constructor
  · intro defaults st key v
    rw [loadSetting, saveSetting, getItem_setItem]
    show (if jsonStringify v = "" then defaults key
      else
        match jsonParse (jsonStringify v) with
        | some v2 => some v2
        | none => some (JVal.jstr (jsonStringify v))) = some v
    rw [if_neg (jsonStringify_ne_empty v), jsonParse_stringify]
  · intro defaults st key s hget hne hparse
    rw [loadSetting, hget]
    show (if s = "" then defaults key
      else
        match jsonParse s with
        | some v2 => some v2
        | none => some (JVal.jstr s)) = some (JVal.jstr s)
    rw [if_neg hne, hparse]

theorem store_roundtrip_spec_witness :
    getItem [("phoneNumber", "hello")] "phoneNumber" = some "hello" ∧
    ("hello" : String) ≠ "" ∧
    jsonParse "hello" = none ∧
    loadSetting (fun _ => none) [("phoneNumber", "hello")] "phoneNumber" =
      some (JVal.jstr "hello") ∧
    loadSetting (fun _ => none)
        (saveSetting [] "useWhatsApp" (JVal.jbool false)) "useWhatsApp" =
      some (JVal.jbool false) := by
  refine ⟨rfl, by decide, rfl, ?_, ?_⟩
  · exact store_roundtrip_spec.2 (fun _ => none) [("phoneNumber", "hello")]
      "phoneNumber" "hello" rfl (by decide) rfl
  · exact store_roundtrip_spec.1 (fun _ => none) [] "useWhatsApp"
      (JVal.jbool false)
